import Mathlib

/-!
Verification development for the NOAA GHCND import script
(scripts/import_noaa.py).  The Python functions `parse_dly_file`,
`import_weather_data` (its batching loop), `insert_batch` (the
`ON CONFLICT (station_id, date) DO UPDATE` upsert) and the station-line
decoding inside `download_stations` are shallowly embedded below; lines of
text are `List Char`, machine-integer arithmetic is `Int`, and fallible
code returns `Option`.
-/

set_option maxRecDepth 40000

namespace Noaa

/-! ## Text helpers: Python slicing, `str.strip`, `int(...)` -/

/-- Python slice `l[a:b]` for `0 ≤ a ≤ b` (clamped at the end of the list,
exactly as Python clamps). -/
def slice (l : List Char) (a b : Nat) : List Char :=
  (l.drop a).take (b - a)

/-- ASCII whitespace recognised by Python `str.strip()` on this data. -/
def isSpace (c : Char) : Bool :=
  c == ' ' || c == '\t' || c == '\n' || c == '\x0d' || c == '\x0b' || c == '\x0c'

/-- Python `str.strip()`: drop whitespace from both ends. -/
def strip (l : List Char) : List Char :=
  ((l.dropWhile isSpace).reverse.dropWhile isSpace).reverse

/-- Value of a nonempty all-digit string, otherwise `none`. -/
def digitsVal (cs : List Char) : Option Nat :=
  if cs ≠ [] ∧ cs.all Char.isDigit then
    some (cs.foldl (fun a c => 10 * a + (c.toNat - 48)) 0)
  else none

/-- Python `int(s)` on the fixed-width fields of this feed: strip
whitespace, optional sign, then a nonempty digit run; anything else raises
`ValueError`, embedded as `none`. -/
def pythonInt? (s : List Char) : Option Int :=
  match strip s with
  | '-' :: rest => (digitsVal rest).map (fun n => -(n : Int))
  | '+' :: rest => (digitsVal rest).map (fun n => (n : Int))
  | t => (digitsVal t).map (fun n => (n : Int))

/-! ## Calendar dates (`datetime.date`) -/

/-- A value of Python `datetime.date`, as constructed by
`date(year, month, day)` in `parse_dly_file`. -/
structure Date where
  year : Int
  month : Int
  day : Int
deriving DecidableEq

/-- Gregorian leap year, as `datetime` implements it. -/
def isLeap (y : Int) : Bool :=
  y % 4 == 0 && (y % 100 != 0 || y % 400 == 0)

/-- Number of days of month `m` in year `y` (Python `calendar` rule). -/
def daysInMonth (y m : Int) : Int :=
  if m = 2 then (if isLeap y then 29 else 28)
  else if m = 4 ∨ m = 6 ∨ m = 9 ∨ m = 11 then 30
  else 31

/-- Python `date(y, m, d)` succeeds exactly on these triples
(`MINYEAR = 1`, `MAXYEAR = 9999`); otherwise it raises `ValueError`. -/
def pythonDateValid (y m d : Int) : Bool :=
  decide (1 ≤ y) && decide (y ≤ 9999) && decide (1 ≤ m) && decide (m ≤ 12) &&
    decide (1 ≤ d) && decide (d ≤ daysInMonth y m)

/-! ## Temperature normalisation -/

/-- Embeds `int(value * 9 / 5 + 320)` from `parse_dly_file`.  For every
value producible from a 5-character field (`|value| ≤ 99999`) the Python
float expression `value * 9 / 5 + 320` lands strictly between the integers
adjacent to the exact rational `(9 * value + 1600) / 5` whenever that
rational is not an integer (its fractional part is a multiple of 1/5 and
the two float roundings err by less than 2^-40), and is computed exactly
when it is an integer; `int(...)` truncates toward zero, so the result is
the toward-zero quotient of `9 * value + 1600` by `5`. -/
def convertTemp (value : Int) : Int :=
  Int.tdiv (9 * value + 1600) 5

/-- Modelled from the spec: the formula `trunc(value * 9 / 5) + 320` that
the specification gives for the temperature conversion (truncation applied
before the offset is added), for comparison with `convertTemp`. -/
def specTemp (value : Int) : Int :=
  Int.tdiv (9 * value) 5 + 320

/-! ## The grouped per-date record (the inner dict of `parse_dly_file`) -/

/-- One value of the inner dict `records[d]`: at most one reading per
element, under the lower-cased element keys `tmax`, `tmin`, `prcp`,
`snow`. -/
structure Entry where
  tmax : Option Int
  tmin : Option Int
  prcp : Option Int
  snow : Option Int
deriving DecidableEq

/-- The fresh `{}` bound by `records[d] = {}`. -/
def Entry.empty : Entry := ⟨none, none, none, none⟩

/-- The outer dict `records` of `parse_dly_file`: an insertion-ordered map
from dates to element readings (Python dicts preserve insertion order). -/
abbrev Records := List (Date × Entry)

/-- The element codes recognised by `parse_dly_file`. -/
def recognized : List (List Char) :=
  ["TMAX".toList, "TMIN".toList, "PRCP".toList, "SNOW".toList]

/-- Embeds `records[d][element.lower()] = value` for one entry: the four
possible lower-cased keys of the inner dict are the four fields of
`Entry`. -/
def setElem (e : Entry) (elem : List Char) (v : Int) : Entry :=
  if elem = "TMAX".toList then { e with tmax := some v }
  else if elem = "TMIN".toList then { e with tmin := some v }
  else if elem = "PRCP".toList then { e with prcp := some v }
  else if elem = "SNOW".toList then { e with snow := some v }
  else e

/-- Embeds the store step of `parse_dly_file`:
`if d not in records: records[d] = {}` followed by
`records[d][element.lower()] = value`.  A missing key appends at the end
(dict insertion order); a present key is updated in place. -/
def updateRecords (recs : Records) (d : Date) (elem : List Char) (v : Int) :
    Records :=
  if recs.any (fun p => decide (p.1 = d)) then
    recs.map (fun p => if p.1 = d then (p.1, setElem p.2 elem v) else p)
  else recs ++ [(d, setElem Entry.empty elem v)]

/-! ## The `.dly` line decoder -/

/-- One raw reading produced by a day slot: the constructed date, the
element code of the line, and the (temperature-normalised) value. -/
abbrev Triple := Date × List Char × Int

/-- Embeds one iteration of the `for day in range(1, 32)` loop of
`parse_dly_file`: extract and strip the 5-character value field, skip the
`-9999` sentinel and blanks, parse the integer (a `ValueError` is caught
and skips the slot), validate the calendar date (a `ValueError` is caught
and skips the slot), and emit the reading with temperatures converted. -/
def parseSlot (year month : Int) (line : List Char) (element : List Char)
    (day : Nat) : Option Triple :=
  let start := 21 + (day - 1) * 8
  let value_str := strip (slice line start (start + 5))
  if value_str = "-9999".toList ∨ value_str = [] then none
  else
    match pythonInt? value_str with
    | none => none
    | some value =>
      if pythonDateValid year month (day : Int) then
        let v :=
          if element = "TMAX".toList ∨ element = "TMIN".toList then
            convertTemp value
          else value
        some (⟨year, month, (day : Int)⟩, element, v)
      else none

/-- Embeds the per-line part of `parse_dly_file`: the length filter, the
year field (`int(line[11:15])`, uncaught on failure, hence `none`), the
minimum-year filter, the month field (`int(line[15:17])`, uncaught on
failure), the element filter; a surviving line yields the readings of its
31 day slots. -/
def parseLine (minYear : Int) (line : List Char) : Option (List Triple) :=
  if line.length < 269 then some []
  else
    match pythonInt? (slice line 11 15) with
    | none => none
    | some year =>
      if year < minYear then some []
      else
        match pythonInt? (slice line 15 17) with
        | none => none
        | some month =>
          let element := slice line 17 21
          if element ∈ recognized then
            some ((List.range' 1 31).filterMap (parseSlot year month line element))
          else some []

/-- Folds the readings of one line into the grouped `records` dict, in slot
order, exactly as the source stores each slot as soon as it is decoded. -/
def insertTriples (recs : Records) (ts : List Triple) : Records :=
  ts.foldl (fun r t => updateRecords r t.1 t.2.1 t.2.2) recs

/-- Processes one line of the file against the accumulated `records`. -/
def processLine (minYear : Int) (recs : Records) (line : List Char) :
    Option Records :=
  (parseLine minYear line).map (insertTriples recs)

/-- Processes the lines of the file in order; a line whose year or month
field raises an uncaught `ValueError` aborts the whole parse. -/
def processLines (minYear : Int) (recs : Records) :
    List (List Char) → Option Records
  | [] => some recs
  | l :: ls =>
    match processLine minYear recs l with
    | none => none
    | some r => processLines minYear r ls

/-- Python `file_content.split('\n')`: split at every newline, keeping
empty pieces (so the empty text yields one empty line). -/
def splitOnNl : List Char → List (List Char)
  | [] => [[]]
  | c :: cs =>
    if c = '\n' then [] :: splitOnNl cs
    else
      match splitOnNl cs with
      | [] => [[c]]
      | l :: ls => (c :: l) :: ls

/-- The grouped `records` dict built by `parse_dly_file` over the whole
file content.  The ambient configuration constant `MIN_YEAR` of the script
is passed explicitly as `minYear`. -/
def dlyRecords (minYear : Int) (content : List Char) : Option Records :=
  processLines minYear [] (splitOnNl content)

/-- A row of the `weather_daily` table, the insertion tuple
`(station_id, date, month, day, tmax, tmin, prcp, snow)`. -/
structure Row where
  station_id : String
  date : Date
  month : Int
  day : Int
  tmax : Option Int
  tmin : Option Int
  prcp : Option Int
  snow : Option Int
deriving DecidableEq

/-- Embeds the assembly loop at the end of `parse_dly_file`: one output
tuple per grouped date that has a `tmax` or a `tmin` reading, in dict
iteration (= insertion) order. -/
def assemble (station_id : String) (recs : Records) : List Row :=
  recs.filterMap (fun p =>
    if p.2.tmax.isSome || p.2.tmin.isSome then
      some ⟨station_id, p.1, p.1.month, p.1.day, p.2.tmax, p.2.tmin,
        p.2.prcp, p.2.snow⟩
    else none)

/-- Embeds `parse_dly_file(file_content, station_id)`, with the ambient
`MIN_YEAR` passed explicitly; `none` when the function raises. -/
def parse_dly_file (minYear : Int) (content : List Char)
    (station_id : String) : Option (List Row) :=
  (dlyRecords minYear content).map (assemble station_id)

/-! ## The batching loop of the importer -/

/-- The loop state of the importer: the `batch` buffer and the batches
handed to `insert_batch` so far (in order). -/
structure LoadState where
  batch : List Row
  flushed : List (List Row)
deriving DecidableEq

/-- Embeds one station of the importer loop: `if records:` append them to
the buffer, and `if len(batch) >= BATCH_SIZE:` flush the buffer and clear
it. -/
def loadStep (B : Nat) (s : LoadState) (records : List Row) : LoadState :=
  if records = [] then s
  else
    let batch := s.batch ++ records
    if B ≤ batch.length then ⟨[], s.flushed ++ [batch]⟩
    else ⟨batch, s.flushed⟩

/-- Embeds the batching of the importer over the per-station record lists:
fold the loop and flush a nonempty remainder once at the end.  The result
is the sequence of batches passed to `insert_batch`; its length is the
number of flush invocations. -/
def runLoad (B : Nat) (stationRecords : List (List Row)) : List (List Row) :=
  let s := stationRecords.foldl (loadStep B) ⟨[], []⟩
  if s.batch = [] then s.flushed else s.flushed ++ [s.batch]

/-- The module constant `BATCH_SIZE` of the script. -/
def BATCH_SIZE : Nat := 10000

/-- The batching behaviour of `import_weather_data` at the configured
default batch size. -/
def import_weather_data (stationRecords : List (List Row)) :
    List (List Row) :=
  runLoad BATCH_SIZE stationRecords

/-! ## The observation upsert (`insert_batch`) -/

/-- The conflict key of the `weather_daily` upsert: `(station_id, date)`. -/
def rowKey (x : Row) : String × Date := (x.station_id, x.date)

/-- The four columns rewritten by the `DO UPDATE SET` clause. -/
def payload (x : Row) : Option Int × Option Int × Option Int × Option Int :=
  (x.tmax, x.tmin, x.prcp, x.snow)

/-- The `DO UPDATE SET tmax = EXCLUDED.tmax, ...` assignment applied to an
existing row `x` for the excluded (incoming) row `r`. -/
def applyConflict (x r : Row) : Row :=
  { x with tmax := r.tmax, tmin := r.tmin, prcp := r.prcp, snow := r.snow }

/-- Upsert of a single row into the `weather_daily` table (a list of rows
in storage order): on a `(station_id, date)` conflict the existing row is
updated in place, otherwise the row is inserted. -/
def upsertRow (t : List Row) (r : Row) : List Row :=
  if t.any (fun x => decide (rowKey x = rowKey r)) then
    t.map (fun x => if rowKey x = rowKey r then applyConflict x r else x)
  else t ++ [r]

/-- Embeds `insert_batch(conn, records)`: the multi-row
`INSERT ... ON CONFLICT (station_id, date) DO UPDATE` applied to table
state `t`, row by row in batch order. -/
def insert_batch (t : List Row) (records : List Row) : List Row :=
  records.foldl upsertRow t

/-- The `(station_id, date)` uniqueness invariant of `weather_daily`. -/
def uniqueKeys (t : List Row) : Prop := (t.map rowKey).Nodup

instance (t : List Row) : Decidable (uniqueKeys t) :=
  List.nodupDecidable (t.map rowKey)

/-! ## Station metadata decoding (`download_stations`) -/

/-- An exact decimal number `mantissa · 10 ^ (-scale)`, the value denoted
by a decimal numeral of the station feed before IEEE rounding. -/
abbrev DecNum := Int × Nat

/-- One tuple appended to `stations`:
`(station_id, name, lat, lon, elev)`. -/
structure Station where
  id : List Char
  name : List Char
  latitude : DecNum
  longitude : DecNum
  elevation : Option DecNum
deriving DecidableEq

/-- Value of an all-digit string (0 when empty). -/
def natDigits (cs : List Char) : Nat :=
  cs.foldl (fun a c => 10 * a + (c.toNat - 48)) 0

/-- A plain unsigned decimal numeral as Python `float()` accepts it on
this feed: a digit run, optionally with one point (`"44"`, `"44.5"`,
`"44."`, `".5"`; a bare `"."` is rejected). -/
def parseDec (u : List Char) : Option (Nat × Nat) :=
  let intPart := u.takeWhile (fun c => c != '.')
  match u.dropWhile (fun c => c != '.') with
  | [] =>
    if u ≠ [] ∧ u.all Char.isDigit then some (natDigits u, 0) else none
  | _ :: frac =>
    if (intPart ≠ [] ∨ frac ≠ []) ∧ intPart.all Char.isDigit ∧
        frac.all Char.isDigit then
      some (natDigits intPart * 10 ^ frac.length + natDigits frac,
        frac.length)
    else none

/-- Python `float(s)` on the decimal numerals of the station feed: strip,
optional sign, then a decimal numeral; `ValueError` is `none`.  The IEEE
rounding of the decimal value is deterministic and injective on one field
width, so the value is kept as the exact decimal it rounds from. -/
def pythonFloat? (s : List Char) : Option DecNum :=
  match strip s with
  | '-' :: rest => (parseDec rest).map (fun p => (-(p.1 : Int), p.2))
  | '+' :: rest => (parseDec rest).map (fun p => ((p.1 : Int), p.2))
  | t => (parseDec t).map (fun p => ((p.1 : Int), p.2))

/-- Embeds one iteration of the station loop of `download_stations`:
strip the identifier (cols 1-11), skip the line unless it starts with
`"US"` (`some none`), then decode latitude (cols 13-20), longitude
(cols 22-30), the optional elevation (cols 32-37, blank decoded as
absent) and the name (cols 42-71); an uncaught `float()` `ValueError` is
the outer `none`. -/
def parseStationLine (line : List Char) : Option (Option Station) :=
  let station_id := strip (slice line 0 11)
  if "US".toList.isPrefixOf station_id then
    match pythonFloat? (slice line 12 20), pythonFloat? (slice line 21 30) with
    | some lat, some lon =>
      let elevStr := strip (slice line 31 37)
      if elevStr = [] then
        some (some ⟨station_id, strip (slice line 41 71), lat, lon, none⟩)
      else
        match pythonFloat? elevStr with
        | some e =>
          some (some ⟨station_id, strip (slice line 41 71), lat, lon, some e⟩)
        | none => none
    | _, _ => none
  else some none

/-! ## Concrete inputs used by the witnesses -/

/-- Builds a fixed-width `.dly` line from its 21-character header and its
31 day slots of 8 characters each. -/
def mkDlyLine (head : String) (slots : List String) : List Char :=
  head.toList ++ (slots.map String.toList).flatten

/-- A missing day slot. -/
def slotM : String := "-9999   "

/-- A `TMAX` line for 2020-03 with day 1 = 15.0 degrees C. -/
def lineT : List Char :=
  mkDlyLine "USW00000001202003TMAX" ("  150   " :: List.replicate 30 slotM)

/-- A `PRCP` line for 2020-03 with day 2 = 1.0 mm. -/
def lineP : List Char :=
  mkDlyLine "USW00000001202003PRCP"
    ("-9999   " :: "   10   " :: List.replicate 29 slotM)

/-- A `TMAX` line for 2020-03 with day 1 = -0.3 degrees C. -/
def lineNeg : List Char :=
  mkDlyLine "USW00000001202003TMAX" ("   -3   " :: List.replicate 30 slotM)

/-- A two-line file: a temperature line and a precipitation-only date. -/
def contentTP : List Char := lineT ++ '\n' :: lineP

/-- A station-metadata line of a US station. -/
def stLineUS : List Char :=
  ("US1MN000001" ++ " " ++ "44.5000 " ++ " " ++ "-93.2500 " ++ " " ++
    " 260.0" ++ "    " ++ "SAINT PAUL DOWNTOWN           ").toList

/-- The station decoded from `stLineUS`. -/
def stUS : Station :=
  ⟨"US1MN000001".toList, "SAINT PAUL DOWNTOWN".toList,
    (445000, 4), (-932500, 4), some (2600, 1)⟩

/-- The row assembled from `lineT`. -/
def row0 : Row :=
  ⟨"USW00000001", ⟨2020, 3, 1⟩, 3, 1, some 590, none, none, none⟩

/-- A conflicting incoming row for the 2020-03-01 key of `row0`. -/
def rowA2 : Row :=
  ⟨"USW00000001", ⟨2020, 3, 1⟩, 3, 1, some 600, some 400, none, none⟩

/-- A second incoming row with a fresh key. -/
def rowB : Row :=
  ⟨"USW00000001", ⟨2020, 3, 2⟩, 3, 2, some 500, none, some 10, none⟩

/-- The grouped records of `contentTP`. -/
def grpTP : Records :=
  [(⟨2020, 3, 1⟩, ⟨some 590, none, none, none⟩),
    (⟨2020, 3, 2⟩, ⟨none, none, some 10, none⟩)]

/-- Every row of `t` at the key of `r` already carries the payload of
`r`. -/
def keyPay (t : List Row) (r : Row) : Prop :=
  ∀ x ∈ t, rowKey x = rowKey r → payload x = payload r

/-- The frame property of the `DO UPDATE` clause: the key columns and the
denormalized `month` and `day` of every stored row are untouched, every
row at the conflicting key now carries exactly the new `tmax`, `tmin`,
`prcp`, `snow`, and rows at other keys are the old rows. -/
def conflictFrameOk (t : List Row) (r : Row) : Prop :=
  (upsertRow t r).map (fun x => (x.station_id, x.date, x.month, x.day)) =
      t.map (fun x => (x.station_id, x.date, x.month, x.day)) ∧
    (∀ x ∈ upsertRow t r, rowKey x = rowKey r → payload x = payload r) ∧
    (∀ x ∈ upsertRow t r, rowKey x ≠ rowKey r → x ∈ t)

/-- The only conditions under which `parse_dly_file` raises on a line:
the line passed the length filter and then the year field, or (for a
recent enough year) the month field, failed `int(...)`. -/
def headerError (minYear : Int) (line : List Char) : Bool :=
  decide (269 ≤ line.length) &&
    (match pythonInt? (slice line 11 15) with
     | none => true
     | some year =>
       decide (minYear ≤ year) && (pythonInt? (slice line 15 17)).isNone)

/-! ## C1: the temperature conversion -/

/-- C1 fails as stated: the code computes `int(value * 9 / 5 + 320)`,
truncating toward zero after the offset is added, while the claim
truncates before adding it.  At the raw reading `v = -3` tenths-Celsius
the code stores `314` tenths-Fahrenheit but the claimed formula
`trunc(v*9/5) + 320` gives `315`; the end-to-end parse of a `TMAX` line
with day-1 value `-3` stores `tmax = 314`. -/
theorem c1_counterexample :
    convertTemp (-3) ≠ specTemp (-3) ∧
    convertTemp (-3) = 314 ∧ specTemp (-3) = 315 ∧
    parse_dly_file 2000 lineNeg "USW00000001" =
      some [⟨"USW00000001", ⟨2020, 3, 1⟩, 3, 1, some 314, none, none,
        none⟩] := by
  refine ⟨by decide, by decide, by decide, by decide⟩

/-- C1 (amended): the normalized value stored for a temperature reading
`v` is `trunc(v*9/5 + 320)` tenths-Fahrenheit (truncation toward zero
applied after the offset); this agrees with the claimed
`trunc(v*9/5) + 320` whenever `0 ≤ v`, and whenever `5` divides `9*v`
(hence also at `v = -50`), and in particular `v=0 ↦ 320`, `v=100 ↦ 500`,
`v=-50 ↦ 230`, `v=37 ↦ 386` (truncating, not rounding). -/
theorem c1_temperature_conversion :
    (∀ v : Int, 0 ≤ v → convertTemp v = specTemp v) ∧
    (∀ v : Int, (5 : Int) ∣ 9 * v → convertTemp v = specTemp v) ∧
    convertTemp 0 = 320 ∧ convertTemp 100 = 500 ∧
    convertTemp (-50) = 230 ∧ convertTemp 37 = 386 := by
  refine ⟨fun v hv => ?_, fun v hv => ?_, by decide, by decide, by decide,
    by decide⟩
  · show Int.tdiv (9 * v + 1600) 5 = Int.tdiv (9 * v) 5 + 320
    rw [Int.tdiv_eq_ediv (by omega) (by omega),
      Int.tdiv_eq_ediv (by omega) (by omega)]
    have h : (9 * v + 1600) = 9 * v + 320 * 5 := by ring
    rw [h, Int.add_mul_ediv_right _ _ (by omega)]
  · obtain ⟨k, hk⟩ := hv
    show Int.tdiv (9 * v + 1600) 5 = Int.tdiv (9 * v) 5 + 320
    rw [hk]
    have h : (5 : Int) * k + 1600 = 5 * (k + 320) := by ring
    rw [h, Int.mul_tdiv_cancel_left _ (by omega),
      Int.mul_tdiv_cancel_left _ (by omega)]

/-- Witness for `c1_temperature_conversion` at `v = 37`. -/
theorem c1_witness : (0 : Int) ≤ 37 ∧ convertTemp 37 = specTemp 37 :=
  ⟨by decide, c1_temperature_conversion.1 37 (by decide)⟩

/-! ## C2: the batching and flushing policy -/

/-- Filling the buffer with singleton record lists below the threshold
never flushes and only extends the buffer. -/
theorem load_fill (B : Nat) (a : Row) :
    ∀ (n : Nat) (s : LoadState), s.batch.length + n < B →
      List.foldl (loadStep B) s (List.replicate n [a]) =
        ⟨s.batch ++ List.replicate n a, s.flushed⟩ := by
  intro n
  induction n with
  | zero => intro s h; simp
  | succ n ih =>
    intro s h
    rw [List.replicate_succ, List.foldl_cons]
    have hstep : loadStep B s [a] = ⟨s.batch ++ [a], s.flushed⟩ := by
      simp only [loadStep]
      rw [if_neg (by simp), if_neg (by simp; omega)]
    rw [hstep, ih ⟨s.batch ++ [a], s.flushed⟩ (by simp; omega)]
    simp [List.replicate_succ]

/-- Filling the buffer with exactly threshold-many singleton record lists
flushes exactly once and leaves the buffer empty. -/
theorem load_fill_exact (C : Nat) (a : Row) :
    List.foldl (loadStep (C + 2)) ⟨[], []⟩ (List.replicate (C + 2) [a]) =
      ⟨[], [List.replicate (C + 1) a ++ [a]]⟩ := by
  rw [List.replicate_succ' (n := C + 1), List.foldl_append,
    load_fill (C + 2) a (C + 1) ⟨[], []⟩ (by simp)]
  simp only [List.foldl_cons, List.foldl_nil, loadStep]
  rw [if_neg (by simp), if_pos (by simp)]
  simp

/-- C2: a flush of the importer buffer happens exactly when the buffered
row count reaches the batch-size threshold (default `BATCH_SIZE = 10000`),
after which the buffer is cleared, and a nonempty final buffer is flushed
once at end-of-stream; in particular streams of `threshold-1`,
`threshold` and `threshold+1` single-row record lists cause `1`, `1` and
`2` flush invocations respectively. -/
theorem c2_batch_flush :
    BATCH_SIZE = 10000 ∧
    (∀ (B : Nat) (s : LoadState) (records : List Row), records ≠ [] →
      s.batch.length < B →
      ((B ≤ s.batch.length + records.length ↔
          loadStep B s records = ⟨[], s.flushed ++ [s.batch ++ records]⟩) ∧
        (s.batch.length + records.length < B →
          loadStep B s records = ⟨s.batch ++ records, s.flushed⟩))) ∧
    (∀ (B : Nat) (a : Row), 2 ≤ B →
      (runLoad B (List.replicate (B - 1) [a])).length = 1 ∧
      (runLoad B (List.replicate B [a])).length = 1 ∧
      (runLoad B (List.replicate (B + 1) [a])).length = 2) ∧
    (∀ a : Row,
      (import_weather_data (List.replicate (BATCH_SIZE - 1) [a])).length = 1 ∧
      (import_weather_data (List.replicate BATCH_SIZE [a])).length = 1 ∧
      (import_weather_data (List.replicate (BATCH_SIZE + 1) [a])).length
        = 2) := by
  have hstep : ∀ (B : Nat) (s : LoadState) (records : List Row),
      records ≠ [] → s.batch.length < B →
      ((B ≤ s.batch.length + records.length ↔
          loadStep B s records = ⟨[], s.flushed ++ [s.batch ++ records]⟩) ∧
        (s.batch.length + records.length < B →
          loadStep B s records = ⟨s.batch ++ records, s.flushed⟩)) := by
    intro B s records hne hlt
    constructor
    · constructor
      · intro hB
        simp only [loadStep]
        rw [if_neg hne, if_pos (by simp; omega)]
      · intro heq
        by_contra hB
        simp only [loadStep] at heq
        rw [if_neg hne, if_neg (by simp; omega)] at heq
        have := congrArg LoadState.flushed heq
        simp at this
    · intro hB
      simp only [loadStep]
      rw [if_neg hne, if_neg (by simp; omega)]
  have hcounts : ∀ (B : Nat) (a : Row), 2 ≤ B →
      (runLoad B (List.replicate (B - 1) [a])).length = 1 ∧
      (runLoad B (List.replicate B [a])).length = 1 ∧
      (runLoad B (List.replicate (B + 1) [a])).length = 2 := by
    intro B a hB
    obtain ⟨C, rfl⟩ : ∃ C, B = C + 2 := ⟨B - 2, by omega⟩
    refine ⟨?_, ?_, ?_⟩
    · show (runLoad (C + 2) (List.replicate (C + 1) [a])).length = 1
      simp only [runLoad]
      rw [load_fill (C + 2) a (C + 1) ⟨[], []⟩ (by simp)]
      rw [if_neg (by simp)]
      simp
    · simp only [runLoad]
      rw [load_fill_exact C a]
      rw [if_pos rfl]
      simp
    · show (runLoad (C + 2) (List.replicate (C + 3) [a])).length = 2
      simp only [runLoad]
      rw [show C + 3 = (C + 2) + 1 from rfl, List.replicate_succ',
        List.foldl_append, load_fill_exact C a]
      simp only [List.foldl_cons, List.foldl_nil, loadStep]
      rw [if_neg (by simp), if_neg (by simp)]
      rw [if_neg (by simp)]
      simp
  refine ⟨rfl, hstep, hcounts, fun a => ?_⟩
  exact hcounts BATCH_SIZE a (by decide)

/-- Witness for `c2_batch_flush` with threshold `2` and stream sizes
`1`, `2`, `3`. -/
theorem c2_witness :
    (2 : Nat) ≤ 2 ∧
    (runLoad 2 (List.replicate 1 [row0])).length = 1 ∧
    (runLoad 2 (List.replicate 2 [row0])).length = 1 ∧
    (runLoad 2 (List.replicate 3 [row0])).length = 2 :=
  ⟨by decide, c2_batch_flush.2.2.1 2 row0 (by decide)⟩

/-! ## C3 and C8: semantics of the `(station_id, date)` upsert -/

/-- The conflict test of `upsertRow` is key membership. -/
theorem any_key_iff (t : List Row) (r : Row) :
    (t.any (fun x => decide (rowKey x = rowKey r))) = true ↔
      rowKey r ∈ t.map rowKey := by
  simp only [List.any_eq_true, decide_eq_true_eq, List.mem_map]

/-- A list map that fixes every member is the identity. -/
theorem map_eq_self {α : Type} (f : α → α) (l : List α)
    (h : ∀ x ∈ l, f x = x) : l.map f = l := by
  induction l with
  | nil => rfl
  | cons a l ih => simp [h a (by simp), ih (fun x hx => h x (by simp [hx]))]

/-- Upserting an already-present key leaves the key column unchanged. -/
theorem upsert_keys_mem (t : List Row) (r : Row)
    (h : rowKey r ∈ t.map rowKey) :
    (upsertRow t r).map rowKey = t.map rowKey := by
  unfold upsertRow
  rw [if_pos ((any_key_iff t r).2 h), List.map_map]
  apply List.map_congr_left
  intro x _
  simp only [Function.comp_apply]
  by_cases hk : rowKey x = rowKey r
  · rw [if_pos hk]; rfl
  · rw [if_neg hk]

/-- Upserting a fresh key appends the row. -/
theorem upsert_keys_new (t : List Row) (r : Row)
    (h : rowKey r ∉ t.map rowKey) : upsertRow t r = t ++ [r] := by
  unfold upsertRow
  exact if_neg (fun hc => h ((any_key_iff t r).1 hc))

/-- Upserts never lose keys. -/
theorem mem_keys_upsert (t : List Row) (r : Row) (k : String × Date)
    (h : k ∈ t.map rowKey) : k ∈ (upsertRow t r).map rowKey := by
  by_cases hm : rowKey r ∈ t.map rowKey
  · rw [upsert_keys_mem t r hm]; exact h
  · rw [upsert_keys_new t r hm]; simp [h]

/-- After an upsert, the upserted key is present. -/
theorem self_key_upsert (t : List Row) (r : Row) :
    rowKey r ∈ (upsertRow t r).map rowKey := by
  by_cases hm : rowKey r ∈ t.map rowKey
  · rw [upsert_keys_mem t r hm]; exact hm
  · rw [upsert_keys_new t r hm]; simp

/-- A whole batch never loses keys. -/
theorem mem_keys_batch (t : List Row) (rs : List Row) (k : String × Date)
    (h : k ∈ t.map rowKey) : k ∈ (insert_batch t rs).map rowKey := by
  induction rs generalizing t with
  | nil => exact h
  | cons r rs ih => exact ih (upsertRow t r) (mem_keys_upsert t r k h)

/-- After upserting `r`, every row at its key carries its payload. -/
theorem upsert_self_pay (t : List Row) (r : Row) :
    keyPay (upsertRow t r) r := by
  intro x hx hk
  unfold upsertRow at hx
  by_cases hm : (t.any fun y => decide (rowKey y = rowKey r)) = true
  · rw [if_pos hm] at hx
    obtain ⟨x0, hx0, hfx⟩ := List.mem_map.1 hx
    by_cases hk0 : rowKey x0 = rowKey r
    · rw [if_pos hk0] at hfx; rw [← hfx]; rfl
    · rw [if_neg hk0] at hfx; rw [← hfx] at hk; exact absurd hk hk0
  · rw [if_neg hm] at hx
    rcases List.mem_append.1 hx with hx1 | hx2
    · exact absurd (List.any_eq_true.2 ⟨x, hx1, by simp [hk]⟩) hm
    · simp only [List.mem_singleton] at hx2; rw [hx2]

/-- Upserting a different key preserves `keyPay`. -/
theorem upsert_other_pay (t : List Row) (r rp : Row)
    (hne : rowKey rp ≠ rowKey r) (h : keyPay t r) :
    keyPay (upsertRow t rp) r := by
  intro x hx hk
  unfold upsertRow at hx
  by_cases hm : (t.any fun y => decide (rowKey y = rowKey rp)) = true
  · rw [if_pos hm] at hx
    obtain ⟨x0, hx0, hfx⟩ := List.mem_map.1 hx
    by_cases hk0 : rowKey x0 = rowKey rp
    · rw [if_pos hk0] at hfx
      rw [← hfx] at hk
      exact absurd (hk0 ▸ hk) hne
    · rw [if_neg hk0] at hfx; rw [← hfx] at hk ⊢; exact h x0 hx0 hk
  · rw [if_neg hm] at hx
    rcases List.mem_append.1 hx with hx1 | hx2
    · exact h x hx1 hk
    · simp only [List.mem_singleton] at hx2; rw [hx2] at hk
      exact absurd hk hne

/-- A batch that never touches the key of `r` preserves `keyPay`. -/
theorem batch_pay (rs : List Row) (r : Row)
    (hnot : rowKey r ∉ rs.map rowKey) :
    ∀ t, keyPay t r → keyPay (insert_batch t rs) r := by
  induction rs with
  | nil => exact fun t h => h
  | cons rp rs ih =>
    intro t h
    simp only [List.map_cons, List.mem_cons, not_or] at hnot
    exact ih hnot.2 (upsertRow t rp)
      (upsert_other_pay t r rp (fun he => hnot.1 he.symm) h)

/-- The conflict update with an identical payload is the identity. -/
theorem applyConflict_eq_self (x r : Row) (h : payload x = payload r) :
    applyConflict x r = x := by
  cases x; cases r
  simp only [payload, Prod.mk.injEq] at h
  simp [applyConflict, h.1, h.2.1, h.2.2.1, h.2.2.2]

/-- Re-upserting a row whose key and payload are already in place is a
no-op. -/
theorem upsert_noop (t : List Row) (r : Row)
    (hmem : rowKey r ∈ t.map rowKey) (h : keyPay t r) : upsertRow t r = t := by
  unfold upsertRow
  rw [if_pos ((any_key_iff t r).2 hmem)]
  apply map_eq_self
  intro x hx
  by_cases hk : rowKey x = rowKey r
  · rw [if_pos hk]; exact applyConflict_eq_self x r (h x hx hk)
  · rw [if_neg hk]

/-- Applying a batch with pairwise-distinct keys twice equals applying it
once. -/
theorem batch_idem (rs : List Row) (hnd : (rs.map rowKey).Nodup) :
    ∀ t, insert_batch (insert_batch t rs) rs = insert_batch t rs := by
  induction rs with
  | nil => intro t; rfl
  | cons r rs ih =>
    intro t
    simp only [List.map_cons, List.nodup_cons] at hnd
    obtain ⟨hr, hnd2⟩ := hnd
    simp only [insert_batch, List.foldl_cons]
    have hk : rowKey r ∈
        ((List.foldl upsertRow (upsertRow t r) rs).map rowKey) :=
      mem_keys_batch (upsertRow t r) rs _ (self_key_upsert t r)
    have hp : keyPay (List.foldl upsertRow (upsertRow t r) rs) r :=
      batch_pay rs r hr (upsertRow t r) (upsert_self_pay t r)
    rw [upsert_noop _ r hk hp]
    exact ih hnd2 (upsertRow t r)

/-- Each upsert preserves `(station_id, date)` uniqueness. -/
theorem upsert_uniq (t : List Row) (r : Row) (h : uniqueKeys t) :
    uniqueKeys (upsertRow t r) := by
  by_cases hm : rowKey r ∈ t.map rowKey
  · unfold uniqueKeys; rw [upsert_keys_mem t r hm]; exact h
  · unfold uniqueKeys at h ⊢
    rw [upsert_keys_new t r hm, List.map_append]
    simp [List.nodup_append, h, hm]

/-- A whole batch preserves `(station_id, date)` uniqueness. -/
theorem batch_uniq (rs : List Row) : ∀ t, uniqueKeys t →
    uniqueKeys (insert_batch t rs) := by
  induction rs with
  | nil => exact fun t h => h
  | cons r rs ih => exact fun t h => ih (upsertRow t r) (upsert_uniq t r h)

/-- C3: for every prior table state with unique `(station_id, date)` keys
and every batch with pairwise-distinct keys (as the database requires of
one `INSERT ... ON CONFLICT` statement), applying `insert_batch` twice
yields the same stored state as applying it once, and key uniqueness is
preserved, so re-running the pipeline on identical input leaves the final
state unchanged with no duplicate rows. -/
theorem c3_idempotent_upsert (t rs : List Row) (h1 : uniqueKeys t)
    (h2 : uniqueKeys rs) :
    insert_batch (insert_batch t rs) rs = insert_batch t rs ∧
      uniqueKeys (insert_batch t rs) :=
  ⟨batch_idem rs h2 t, batch_uniq rs t h1⟩

/-- Witness for `c3_idempotent_upsert` on a one-row table and a two-row
batch that conflicts on `(USW00000001, 2020-03-01)`. -/
theorem c3_witness :
    uniqueKeys [row0] ∧ uniqueKeys [rowA2, rowB] ∧
      (insert_batch (insert_batch [row0] [rowA2, rowB]) [rowA2, rowB] =
          insert_batch [row0] [rowA2, rowB] ∧
        uniqueKeys (insert_batch [row0] [rowA2, rowB])) :=
  ⟨by decide, by decide,
    c3_idempotent_upsert [row0] [rowA2, rowB] (by decide) (by decide)⟩

/-- C8: when the upsert conflicts on `(station_id, date)`, only `tmax`,
`tmin`, `prcp`, `snow` of the existing row are overwritten; `month` and
`day` (and the key columns) remain unchanged, and no other row is
affected. -/
theorem c8_conflict_frame (t : List Row) (r : Row)
    (h : rowKey r ∈ t.map rowKey) : conflictFrameOk t r := by
  refine ⟨?_, fun x hx => upsert_self_pay t r x hx, fun x hx hne => ?_⟩
  · unfold upsertRow
    rw [if_pos ((any_key_iff t r).2 h), List.map_map]
    apply List.map_congr_left
    intro x _
    simp only [Function.comp_apply]
    by_cases hk : rowKey x = rowKey r
    · rw [if_pos hk]; rfl
    · rw [if_neg hk]
  · unfold upsertRow at hx
    rw [if_pos ((any_key_iff t r).2 h)] at hx
    obtain ⟨x0, hx0, hfx⟩ := List.mem_map.1 hx
    by_cases hk0 : rowKey x0 = rowKey r
    · rw [if_pos hk0] at hfx
      exfalso
      apply hne
      rw [← hfx]
      exact hk0
    · rw [if_neg hk0] at hfx; rw [← hfx]; exact hx0

/-- Witness for `c8_conflict_frame`: `rowA2` conflicts with `row0` in a
two-row table. -/
theorem c8_witness :
    rowKey rowA2 ∈ [row0, rowB].map rowKey ∧
      conflictFrameOk [row0, rowB] rowA2 :=
  ⟨by decide, c8_conflict_frame [row0, rowB] rowA2 (by decide)⟩

/-! ## Structure of the line decoder -/

/-- A reading emitted by a day slot carries the date built from that
slot tuple `(year, month, day)`, and that date passed validation. -/
theorem parseSlot_some (y m : Int) (line e : List Char) (d : Nat)
    (t : Triple) (h : parseSlot y m line e d = some t) :
    t.1 = ⟨y, m, (d : Int)⟩ ∧ pythonDateValid y m (d : Int) = true := by
  simp only [parseSlot] at h
  split at h
  · exact absurd h (by simp)
  · split at h
    · exact absurd h (by simp)
    · split at h
      · obtain ⟨rfl⟩ := Option.some.inj h
        exact ⟨rfl, by assumption⟩
      · exact absurd h (by simp)

/-- A successful `parseLine` either skipped the line (one of the three
filters) or decoded its header and emitted the 31 slots. -/
theorem parseLine_some (minYear : Int) (line : List Char)
    (ts : List Triple) (h : parseLine minYear line = some ts) :
    ts = [] ∨
      (269 ≤ line.length ∧ ∃ year month : Int,
        pythonInt? (slice line 11 15) = some year ∧ minYear ≤ year ∧
        pythonInt? (slice line 15 17) = some month ∧
        slice line 17 21 ∈ recognized ∧
        ts = (List.range' 1 31).filterMap
          (parseSlot year month line (slice line 17 21))) := by
  simp only [parseLine] at h
  split at h
  · exact Or.inl (Option.some.inj h).symm
  · rename_i hlen
    split at h
    · exact absurd h (by simp)
    · rename_i year hy
      split at h
      · exact Or.inl (Option.some.inj h).symm
      · rename_i hylt
        split at h
        · exact absurd h (by simp)
        · rename_i month hm
          split at h
          · rename_i hel
            exact Or.inr ⟨by omega, year, month, hy, by omega, hm, hel,
              (Option.some.inj h).symm⟩
          · exact Or.inl (Option.some.inj h).symm

/-! ## C7: the three line filters -/

/-- C7: a line contributes readings only if it is at least 269 characters
long, its year is at least the configured minimum, and its element code
is recognized; a line failing any of the three filters is skipped
entirely and contributes no readings. -/
theorem c7_line_filters (minYear : Int) (line : List Char) :
    (line.length < 269 → parseLine minYear line = some []) ∧
    (∀ year : Int, 269 ≤ line.length →
      pythonInt? (slice line 11 15) = some year → year < minYear →
      parseLine minYear line = some []) ∧
    (∀ year month : Int, 269 ≤ line.length →
      pythonInt? (slice line 11 15) = some year → minYear ≤ year →
      pythonInt? (slice line 15 17) = some month →
      slice line 17 21 ∉ recognized →
      parseLine minYear line = some []) ∧
    (∀ ts, parseLine minYear line = some ts → ts ≠ [] →
      269 ≤ line.length ∧
      (∃ year : Int, pythonInt? (slice line 11 15) = some year ∧
        minYear ≤ year) ∧
      slice line 17 21 ∈ recognized) := by
  refine ⟨fun h => by simp [parseLine, h], ?_, ?_, ?_⟩
  · intro year hlen hy hlt
    simp [parseLine, Nat.not_lt.2 hlen, hy, hlt]
  · intro year month hlen hy hge hm hel
    simp [parseLine, Nat.not_lt.2 hlen, hy, Int.not_lt.2 hge, hm, hel]
  · intro ts hts hne
    rcases parseLine_some minYear line ts hts with rfl | ⟨hlen, year, month,
      hy, hge, _, hel, _⟩
    · exact absurd rfl hne
    · exact ⟨hlen, ⟨year, hy, hge⟩, hel⟩

/-- Witness for `c7_line_filters`: the empty line is below the length
threshold and is skipped. -/
theorem c7_witness :
    ([] : List Char).length < 269 ∧ parseLine 2000 [] = some [] :=
  ⟨by decide, (c7_line_filters 2000 []).1 (by decide)⟩

/-! ## C5: the missing-value sentinel -/

/-- A day slot whose trimmed value field is `-9999` or blank emits
nothing. -/
theorem parseSlot_sentinel (y m : Int) (line e : List Char) (d : Nat)
    (hs : strip (slice line (21 + (d - 1) * 8) (21 + (d - 1) * 8 + 5)) =
        "-9999".toList ∨
      strip (slice line (21 + (d - 1) * 8) (21 + (d - 1) * 8 + 5)) = []) :
    parseSlot y m line e d = none := by
  simp only [parseSlot]
  rw [if_pos hs]

/-- C5: for every line and day slot whose trimmed 5-character value field
is the literal `-9999` or empty, no reading is recorded for that slot:
no emitted reading of the line carries that day number (so the grouped
record for that date is never touched by that slot). -/
theorem c5_missing_sentinel (minYear : Int) (line : List Char) (day : Nat)
    (h1 : 1 ≤ day) (h2 : day ≤ 31)
    (hs : strip (slice line (21 + (day - 1) * 8) (21 + (day - 1) * 8 + 5)) =
        "-9999".toList ∨
      strip (slice line (21 + (day - 1) * 8) (21 + (day - 1) * 8 + 5)) = [])
    (ts : List Triple) (hts : parseLine minYear line = some ts) :
    ∀ t ∈ ts, t.1.day ≠ (day : Int) := by
  intro t ht hcontra
  rcases parseLine_some minYear line ts hts with rfl | ⟨_, year, month, _, _,
    _, _, hts2⟩
  · exact absurd ht (List.not_mem_nil t)
  · subst hts2
    obtain ⟨d2, _, hsome⟩ := List.mem_filterMap.1 ht
    obtain ⟨hdate, _⟩ := parseSlot_some year month line _ d2 t hsome
    have hdd : d2 = day := by
      rw [hdate] at hcontra
      have hc2 : (d2 : Int) = (day : Int) := hcontra
      exact_mod_cast hc2
    subst hdd
    rw [parseSlot_sentinel year month line _ d2 hs] at hsome
    exact absurd hsome (by simp)

/-- Witness for `c5_missing_sentinel`: day 2 of `lineT` is the `-9999`
sentinel, and the single reading of the line is for day 1. -/
theorem c5_witness :
    ((1 : Nat) ≤ 2 ∧ (2 : Nat) ≤ 31 ∧
      (strip (slice lineT (21 + (2 - 1) * 8) (21 + (2 - 1) * 8 + 5)) =
          "-9999".toList ∨
        strip (slice lineT (21 + (2 - 1) * 8) (21 + (2 - 1) * 8 + 5)) = []) ∧
      parseLine 2000 lineT = some [(⟨2020, 3, 1⟩, "TMAX".toList, 590)]) ∧
    ((⟨2020, 3, 1⟩ : Date), "TMAX".toList, (590 : Int)).1.day ≠
      ((2 : Nat) : Int) :=
  ⟨⟨by decide, by decide, by decide, by decide⟩,
    c5_missing_sentinel 2000 lineT 2 (by decide) (by decide) (by decide)
      [(⟨2020, 3, 1⟩, "TMAX".toList, 590)] (by decide)
      (⟨2020, 3, 1⟩, "TMAX".toList, 590) (by decide)⟩

/-! ## C6: invalid calendar dates are skipped locally -/

/-- C6: an invalid `(year, month, day)` combination never produces a
reading — every emitted reading carries a valid calendar date — and
invalid dates never surface an error: a line fails only for the header
reasons of `headerError`, which do not mention the day slots. -/
theorem c6_invalid_date (minYear : Int) (line : List Char) :
    (parseLine minYear line = none ↔ headerError minYear line = true) ∧
    (∀ ts, parseLine minYear line = some ts → ∀ t ∈ ts,
      pythonDateValid t.1.year t.1.month t.1.day = true) := by
  constructor
  · simp only [parseLine, headerError]
    split
    · rename_i hlen
      simp [Nat.not_le.2 hlen]
    · rename_i hlen
      split
      · rename_i hy
        simp [hy, Nat.not_lt.1 hlen]
      · rename_i year hy
        split
        · rename_i hylt
          simp [hy, Nat.not_lt.1 hlen, Int.not_le.2 hylt]
        · rename_i hylt
          split
          · rename_i hm
            simp [hy, hm, Nat.not_lt.1 hlen, Int.not_lt.1 hylt]
          · rename_i month hm
            split <;> simp [hy, hm, Int.not_lt.1 hylt]
  · intro ts hts t ht
    rcases parseLine_some minYear line ts hts with rfl | ⟨_, year, month, _,
      _, _, _, hts2⟩
    · exact absurd ht (List.not_mem_nil t)
    · subst hts2
      obtain ⟨d2, _, hsome⟩ := List.mem_filterMap.1 ht
      obtain ⟨hdate, hvalid⟩ := parseSlot_some year month line _ d2 t hsome
      rw [hdate]
      exact hvalid

/-- Witness for `c6_invalid_date` on `lineT`. -/
theorem c6_witness :
    (parseLine 2000 lineT = none ↔ headerError 2000 lineT = true) ∧
      pythonDateValid 2020 3 1 = true :=
  ⟨(c6_invalid_date 2000 lineT).1,
    (c6_invalid_date 2000 lineT).2 [(⟨2020, 3, 1⟩, "TMAX".toList, 590)]
      (by decide) (⟨2020, 3, 1⟩, "TMAX".toList, 590) (by decide)⟩

/-! ## C4: only dates with a temperature reading are assembled -/

/-- C4: a date appears among the rows returned by `parse_dly_file` if and
only if its grouped record has a `tmax` or a `tmin` reading; dates that
accumulated only `prcp` or `snow` values produce no output row. -/
theorem c4_temp_required (minYear : Int) (content : List Char)
    (sid : String) (grp : Records) (rows : List Row)
    (h1 : dlyRecords minYear content = some grp)
    (h2 : parse_dly_file minYear content sid = some rows) (d : Date) :
    (∃ r ∈ rows, r.date = d) ↔
      ∃ e : Entry, (d, e) ∈ grp ∧
        (e.tmax.isSome = true ∨ e.tmin.isSome = true) := by
  have hrows : rows = assemble sid grp := by
    simp only [parse_dly_file, h1, Option.map_some] at h2
    exact (Option.some.inj h2).symm
  subst hrows
  constructor
  · rintro ⟨r, hr, rfl⟩
    obtain ⟨p, hp, hsome⟩ := List.mem_filterMap.1 hr
    split at hsome
    · rename_i hcond
      obtain rfl := Option.some.inj hsome
      exact ⟨p.2, hp, (Bool.or_eq_true _ _).mp hcond⟩
    · exact absurd hsome (by simp)
  · rintro ⟨e, he, hor⟩
    refine ⟨⟨sid, d, d.month, d.day, e.tmax, e.tmin, e.prcp, e.snow⟩,
      List.mem_filterMap.2 ⟨(d, e), he, ?_⟩, rfl⟩
    rw [if_pos ((Bool.or_eq_true _ _).mpr hor)]

/-- Witness for `c4_temp_required`: 2020-03-02 of `contentTP` has only a
`prcp` reading and produces no row. -/
theorem c4_witness :
    (dlyRecords 2000 contentTP = some grpTP ∧
      parse_dly_file 2000 contentTP "USW00000001" = some [row0]) ∧
    ((∃ r ∈ [row0], r.date = (⟨2020, 3, 2⟩ : Date)) ↔
      ∃ e : Entry, ((⟨2020, 3, 2⟩ : Date), e) ∈ grpTP ∧
        (e.tmax.isSome = true ∨ e.tmin.isSome = true)) :=
  ⟨⟨by decide, by decide⟩,
    c4_temp_required 2000 contentTP "USW00000001" grpTP [row0] (by decide)
      (by decide) ⟨2020, 3, 2⟩⟩

/-! ## C10: at most one output row per date, last write wins -/

/-- The date-membership test of `updateRecords` is key membership. -/
theorem any_fst_iff (recs : Records) (d : Date) :
    (recs.any fun p => decide (p.1 = d)) = true ↔
      d ∈ recs.map Prod.fst := by
  simp only [List.any_eq_true, decide_eq_true_eq, List.mem_map]

/-- Updating a present date leaves the date column unchanged. -/
theorem updateRecords_keys_mem (recs : Records) (d : Date) (e : List Char)
    (v : Int) (h : d ∈ recs.map Prod.fst) :
    (updateRecords recs d e v).map Prod.fst = recs.map Prod.fst := by
  unfold updateRecords
  rw [if_pos ((any_fst_iff recs d).2 h), List.map_map]
  apply List.map_congr_left
  intro p _
  simp only [Function.comp_apply]
  by_cases hp : p.1 = d
  · rw [if_pos hp]
  · rw [if_neg hp]

/-- Updating an absent date appends it. -/
theorem updateRecords_keys_new (recs : Records) (d : Date) (e : List Char)
    (v : Int) (h : d ∉ recs.map Prod.fst) :
    updateRecords recs d e v = recs ++ [(d, setElem Entry.empty e v)] := by
  unfold updateRecords
  exact if_neg (fun hc => h ((any_fst_iff recs d).1 hc))

/-- Updating a present date maps the in-place update over the records. -/
theorem updateRecords_of_mem (recs : Records) (d : Date) (e : List Char)
    (v : Int) (h : d ∈ recs.map Prod.fst) :
    updateRecords recs d e v =
      recs.map (fun p => if p.1 = d then (p.1, setElem p.2 e v) else p) := by
  unfold updateRecords
  rw [if_pos ((any_fst_iff recs d).2 h)]

/-- `updateRecords` preserves distinctness of the grouped dates. -/
theorem updateRecords_nodup (recs : Records) (d : Date) (e : List Char)
    (v : Int) (h : (recs.map Prod.fst).Nodup) :
    ((updateRecords recs d e v).map Prod.fst).Nodup := by
  by_cases hm : d ∈ recs.map Prod.fst
  · rw [updateRecords_keys_mem recs d e v hm]; exact h
  · rw [updateRecords_keys_new recs d e v hm, List.map_append]
    simp [List.nodup_append, h, hm]

/-- Folding the readings of a line preserves date distinctness. -/
theorem insertTriples_nodup (ts : List Triple) :
    ∀ recs : Records, (recs.map Prod.fst).Nodup →
      ((insertTriples recs ts).map Prod.fst).Nodup := by
  induction ts with
  | nil => exact fun recs h => h
  | cons t ts ih =>
    intro recs h
    exact ih (updateRecords recs t.1 t.2.1 t.2.2)
      (updateRecords_nodup _ _ _ _ h)

/-- Processing the file lines preserves date distinctness. -/
theorem processLines_nodup (ls : List (List Char)) (minYear : Int) :
    ∀ recs out : Records, (recs.map Prod.fst).Nodup →
      processLines minYear recs ls = some out →
      (out.map Prod.fst).Nodup := by
  induction ls with
  | nil =>
    intro recs out h hp
    obtain rfl := Option.some.inj hp
    exact h
  | cons l ls ih =>
    intro recs out h hp
    simp only [processLines] at hp
    split at hp
    · exact absurd hp (by simp)
    · rename_i r hr
      simp only [processLine] at hr
      obtain ⟨ts, _, rfl⟩ := Option.map_eq_some.1 hr
      exact ih _ out (insertTriples_nodup ts recs h) hp

/-- The date of every assembled row is a grouped date. -/
theorem assemble_date_mem (sid : String) (recs : Records) (r : Row)
    (h : r ∈ assemble sid recs) : r.date ∈ recs.map Prod.fst := by
  obtain ⟨p, hp, hsome⟩ := List.mem_filterMap.1 h
  split at hsome
  · obtain rfl := Option.some.inj hsome
    exact List.mem_map.2 ⟨p, hp, rfl⟩
  · exact absurd hsome (by simp)

/-- Assembly preserves date distinctness. -/
theorem assemble_nodup (sid : String) (recs : Records)
    (h : (recs.map Prod.fst).Nodup) :
    ((assemble sid recs).map Row.date).Nodup := by
  induction recs with
  | nil => simp [assemble]
  | cons p recs ih =>
    simp only [List.map_cons, List.nodup_cons] at h
    obtain ⟨hp, hnd⟩ := h
    by_cases hc : p.2.tmax.isSome = true ∨ p.2.tmin.isSome = true
    · have hcons : assemble sid (p :: recs) =
          ⟨sid, p.1, p.1.month, p.1.day, p.2.tmax, p.2.tmin, p.2.prcp,
            p.2.snow⟩ :: assemble sid recs := by
        simp [assemble, List.filterMap_cons, hc]
      rw [hcons, List.map_cons, List.nodup_cons]
      refine ⟨?_, ih hnd⟩
      intro hmem
      obtain ⟨r, hr, hrd⟩ := List.mem_map.1 hmem
      have hrd2 : r.date = p.1 := hrd
      exact hp (hrd2 ▸ assemble_date_mem sid recs r hr)
    · have hskip : assemble sid (p :: recs) = assemble sid recs := by
        simp [assemble, List.filterMap_cons, hc]
      rw [hskip]
      exact ih hnd

/-- Storing the same date and element twice keeps only the last value. -/
theorem setElem_absorb (x : Entry) (e : List Char) (v1 v2 : Int) :
    setElem (setElem x e v1) e v2 = setElem x e v2 := by
  unfold setElem
  split_ifs <;> rfl

/-- Last write wins: updating the same date and element twice equals the
single final update. -/
theorem updateRecords_absorb (recs : Records) (d : Date) (e : List Char)
    (v1 v2 : Int) :
    updateRecords (updateRecords recs d e v1) d e v2 =
      updateRecords recs d e v2 := by
  by_cases hm : d ∈ recs.map Prod.fst
  · have hm1 : d ∈ (updateRecords recs d e v1).map Prod.fst := by
      rw [updateRecords_keys_mem recs d e v1 hm]; exact hm
    rw [updateRecords_of_mem _ d e v2 hm1,
      updateRecords_of_mem recs d e v1 hm, List.map_map,
      updateRecords_of_mem recs d e v2 hm]
    apply List.map_congr_left
    intro p _
    simp only [Function.comp_apply]
    by_cases hp : p.1 = d
    · simp [hp, setElem_absorb]
    · simp [hp]
  · rw [updateRecords_keys_new recs d e v1 hm]
    rw [updateRecords_of_mem _ d e v2 (by simp), List.map_append,
      updateRecords_keys_new recs d e v2 hm]
    congr 1
    · apply map_eq_self
      intro p hp
      have hne : ¬(p.1 = d) := fun he => hm (List.mem_map.2 ⟨p, hp, he⟩)
      rw [if_neg hne]
    · simp [setElem_absorb]

/-- C10: the rows returned by `parse_dly_file` have pairwise-distinct
dates — the `(station, date)` keys of the output of one file are unique before
any database upsert — and repeated readings for the same date and element
resolve to a single value by last-write-wins. -/
theorem c10_unique_dates :
    (∀ (minYear : Int) (content : List Char) (sid : String)
      (rows : List Row), parse_dly_file minYear content sid = some rows →
      (rows.map Row.date).Nodup) ∧
    (∀ (recs : Records) (d : Date) (e : List Char) (v1 v2 : Int),
      updateRecords (updateRecords recs d e v1) d e v2 =
        updateRecords recs d e v2) := by
  constructor
  · intro minYear content sid rows h
    simp only [parse_dly_file] at h
    obtain ⟨grp, hgrp, rfl⟩ := Option.map_eq_some.1 h
    exact assemble_nodup sid grp
      (processLines_nodup _ minYear [] grp (by simp) hgrp)
  · exact fun recs d e v1 v2 => updateRecords_absorb recs d e v1 v2

/-- Witness for `c10_unique_dates` on the two-line file `contentTP`. -/
theorem c10_witness :
    parse_dly_file 2000 contentTP "USW00000001" = some [row0] ∧
      ([row0].map Row.date).Nodup :=
  ⟨by decide,
    c10_unique_dates.1 2000 contentTP "USW00000001" [row0] (by decide)⟩

/-! ## C9: station-line decoding -/

/-- C9: station-line decoding is deterministic (the same line always
decodes to the same `Station` tuple), a successfully processed line is
included exactly when its stripped identifier starts with `US`, the
decoded identifier is the stripped columns 1-11, and a blank elevation
field decodes as absent. -/
theorem c9_station_decode (line : List Char) :
    (∀ r1 r2 : Option Station, parseStationLine line = some r1 →
      parseStationLine line = some r2 → r1 = r2) ∧
    (∀ r : Option Station, parseStationLine line = some r →
      (((∃ st, r = some st) ↔
          "US".toList.isPrefixOf (strip (slice line 0 11)) = true) ∧
        (∀ st, r = some st → st.id = strip (slice line 0 11) ∧
          (strip (slice line 31 37) = [] → st.elevation = none)))) := by
  constructor
  · intro r1 r2 h1 h2
    rw [h1] at h2
    exact Option.some.inj h2
  · intro r hr
    by_cases hpre : "US".toList.isPrefixOf (strip (slice line 0 11)) = true
    · simp only [parseStationLine] at hr
      rw [if_pos hpre] at hr
      split at hr
      · split at hr
        · obtain rfl := Option.some.inj hr
          refine ⟨⟨fun _ => hpre, fun _ => ⟨_, rfl⟩⟩, ?_⟩
          intro st hst
          obtain rfl := Option.some.inj hst
          exact ⟨rfl, fun _ => rfl⟩
        · rename_i helev
          split at hr
          · obtain rfl := Option.some.inj hr
            refine ⟨⟨fun _ => hpre, fun _ => ⟨_, rfl⟩⟩, ?_⟩
            intro st hst
            obtain rfl := Option.some.inj hst
            exact ⟨rfl, fun hb => absurd hb helev⟩
          · exact absurd hr (by simp)
      · exact absurd hr (by simp)
    · simp only [parseStationLine] at hr
      rw [if_neg hpre] at hr
      obtain rfl := Option.some.inj hr
      refine ⟨⟨?_, fun hp => absurd hp hpre⟩, ?_⟩
      · rintro ⟨st, hst⟩
        exact absurd hst (by simp)
      · intro st hst
        exact absurd hst (by simp)

/-- Witness for `c9_station_decode` on the concrete US line `stLineUS`. -/
theorem c9_witness :
    parseStationLine stLineUS = some (some stUS) ∧
      ((∃ st, (some stUS : Option Station) = some st) ↔
        "US".toList.isPrefixOf (strip (slice stLineUS 0 11)) = true) ∧
      stUS.id = strip (slice stLineUS 0 11) :=
  ⟨by decide,
    ((c9_station_decode stLineUS).2 (some stUS) (by decide)).1,
    (((c9_station_decode stLineUS).2 (some stUS) (by decide)).2 stUS
      rfl).1⟩

end Noaa
